import Mathlib

/-!
Shallow embedding of the stock-dashboard program (`streamlit.py`): the
Alpha Vantage fetch (`fetch_stock_data`), the `st.cache_data(ttl=300)`
memoization wrapper, the metrics computation (`calculate_metrics`), the
credential check in `main`, and the CSV export (`df.to_csv()`) together
with a CSV reader for the round-trip property.

Numeric modelling: prices and volumes are modelled as rationals (`ℚ`).
Operations that can produce IEEE special values in the Python code
(division by zero inside numpy/pandas yields `inf`/`-inf`/`nan` without
raising) are modelled with the `PyFloat` type below, which carries the
finite, inf, negative-inf, nan classification exactly.  The one numerically
inexact point is the square root inside the standard deviation
(`Rat.sqrt` here, a float sqrt in pandas); no claim depends on that
finite value, only on whether the result is NaN or finite, and that
classification is modelled exactly.
-/

namespace StockDashboard

/-- A numpy/pandas scalar: a finite rational or one of the IEEE special
values that division by zero can produce.  -/
inductive PyFloat where
  | fin (q : ℚ)
  | inf
  | ninf
  | nan
deriving DecidableEq, Repr

/-- Division of two finite values with numpy semantics: `x / 0` is
`inf` for positive `x`, `-inf` for negative `x`, and `nan` for `0 / 0`;
no exception is raised.  -/
def pfDivQ (a b : ℚ) : PyFloat :=
  if b ≠ 0 then .fin (a / b)
  else if 0 < a then .inf
  else if a < 0 then .ninf
  else .nan

/-- Multiplication of a possibly-special scalar by a positive rational
constant (used for the `* 100` scalings; a positive factor preserves
the inf/nan classification).  -/
def pfScale (c : ℚ) (x : PyFloat) : PyFloat :=
  match x with
  | .fin q => .fin (c * q)
  | .inf => .inf
  | .ninf => .ninf
  | .nan => .nan

/-- Whether a scalar is `nan` (models `pd.isna`; infinities are not NA). -/
def PyFloat.isNan : PyFloat → Bool
  | .nan => true
  | _ => false

/-- Whether a scalar is `inf` or `-inf`. -/
def PyFloat.isInf : PyFloat → Bool
  | .inf => true
  | .ninf => true
  | _ => false

/-- One row of the fetched DataFrame: the date index entry (modelled as
an abstract ordinal; `pd.to_datetime` is injective and monotone on the
provider's `YYYY-MM-DD` keys) and the five numeric columns exactly as
named in the source (`df.columns = ['Open','High','Low','Close','Volume']`). -/
structure Row where
  date : Nat
  Open : ℚ
  High : ℚ
  Low : ℚ
  Close : ℚ
  Volume : ℚ
deriving DecidableEq, Repr

/-- The DataFrame object held by a caller: the base rows plus the
derived columns, which are `none` until some computation assigns them
(`df['MA_20'] = ...` mutates the frame by attaching the column). Each
derived column is aligned with `rows`. -/
structure DF where
  rows : List Row
  MA_20 : Option (List (Option ℚ)) := none
  MA_50 : Option (List (Option ℚ)) := none
  Daily_Return : Option (List PyFloat) := none
deriving DecidableEq, Repr

/-- `series.rolling(window=w).mean()`: entry `i` is the mean of the `w`
values ending at `i`, and NaN (here `none`) while fewer than `w` values
are available (pandas' default `min_periods = window`). -/
def rollingMean (w : Nat) (xs : List ℚ) : List (Option ℚ) :=
  (List.range xs.length).map fun i =>
    if i + 1 < w then none
    else some (((xs.take (i + 1)).drop (i + 1 - w)).sum / (w : ℚ))

/-- `series.pct_change()`: first entry NaN, then `(xᵢ - xᵢ₋₁) / xᵢ₋₁`
with numpy division-by-zero semantics. Helper running over consecutive
pairs. -/
def pctChangeAux (p : ℚ) : List ℚ → List PyFloat
  | [] => []
  | c :: t => pfDivQ (c - p) p :: pctChangeAux c t

/-- `series.pct_change()` on a whole column. -/
def pctChange : List ℚ → List PyFloat
  | [] => []
  | x :: xs => .nan :: pctChangeAux x xs

/-- Mean of a rational list (`series.mean()`), 0 on the empty list
(the callers below only use it on non-empty columns). -/
def listMean (xs : List ℚ) : ℚ := xs.sum / (xs.length : ℚ)

/-- Maximum of a column (`series.max()`), taken over a head-and-tail
split so it is total on the non-empty lists the caller supplies. -/
def colMax (x : ℚ) (xs : List ℚ) : ℚ := xs.foldl max x

/-- Minimum of a column (`series.min()`). -/
def colMin (x : ℚ) (xs : List ℚ) : ℚ := xs.foldl min x

/-- Sample standard deviation with pandas semantics
(`series.std()`: skipna over NaN, `ddof = 1`, NaN when fewer than two
values remain, NaN when an infinity contaminates the arithmetic).  The
finite value uses `Rat.sqrt` in place of the float square root; the
NaN-versus-finite classification is exact. -/
def sampleStd (xs : List PyFloat) : PyFloat :=
  let nonNa := xs.filter (fun x => ¬ x.isNan)
  if nonNa.any (fun x => x.isInf) then .nan
  else
    let qs := nonNa.filterMap (fun x => match x with | .fin q => some q | _ => none)
    if qs.length < 2 then .nan
    else
      let m := listMean qs
      .fin (Rat.sqrt ((qs.map (fun q => (q - m) ^ 2)).sum / ((qs.length : ℚ) - 1)))

/-- The metrics dictionary built by `calculate_metrics`, with the
source's keys.  `daily_change_pct` and `volatility` can be IEEE special
values; `ma_20` / `ma_50` are `None` when the last rolling entry is NaN. -/
structure Metrics where
  current_price : ℚ
  daily_change : ℚ
  daily_change_pct : PyFloat
  volume : ℚ
  high_52w : ℚ
  low_52w : ℚ
  avg_volume : ℚ
  volatility : PyFloat
  ma_20 : Option ℚ
  ma_50 : Option ℚ
deriving DecidableEq, Repr

/-- The metrics dictionary of `calculate_metrics` on a non-empty frame
with rows `r0 :: rest` (the only case in which the Python code builds
the dict). -/
def metricsOf (r0 : Row) (rest : List Row) : Metrics :=
  let closes := (r0 :: rest).map Row.Close
  let latest_price := closes.getLastD r0.Close
  let previous_price :=
    if 1 < (r0 :: rest).length then closes.getD (closes.length - 2) latest_price
    else latest_price
  { current_price := latest_price
    daily_change := latest_price - previous_price
    daily_change_pct := pfScale 100 (pfDivQ (latest_price - previous_price) previous_price)
    volume := (((r0 :: rest).map Row.Volume).getLastD r0.Volume)
    high_52w := colMax r0.High (rest.map Row.High)
    low_52w := colMin r0.Low (rest.map Row.Low)
    avg_volume := listMean ((r0 :: rest).map Row.Volume)
    volatility := pfScale 100 (sampleStd (pctChange closes))
    ma_20 := ((rollingMean 20 closes).getLastD none)
    ma_50 := ((rollingMean 50 closes).getLastD none) }

/-- `calculate_metrics(df)`.  The Python function returns `{}` when the
input is `None`/empty (modelled as `none`) and otherwise the pair
`(metrics, df)` where `df` is the SAME frame it was handed, mutated in
place by the three column assignments (`df['MA_20'] = ...` etc.); the
second component of the result is the state of the caller's frame
after the call. -/
def calculate_metrics (df : DF) : Option Metrics × DF :=
  match df.rows with
  | [] => (none, df)
  | r0 :: rest =>
    (some (metricsOf r0 rest),
     { df with MA_20 := some (rollingMean 20 ((r0 :: rest).map Row.Close))
               MA_50 := some (rollingMean 50 ((r0 :: rest).map Row.Close))
               Daily_Return := some (pctChange ((r0 :: rest).map Row.Close)) })

/-- A raw date-keyed record of the `"Time Series (Daily)"` JSON object,
with the five numeric fields already decoded (the string-to-number
conversion `pd.to_numeric` is abstracted; a record whose fields do not
decode surfaces as `ApiResponse.raised` below, since `pd.to_numeric`
raises inside the `try` block). -/
structure RawRecord where
  Open : ℚ
  High : ℚ
  Low : ℚ
  Close : ℚ
  Volume : ℚ
deriving DecidableEq, Repr

/-- A decoded JSON payload from the provider.  `errorMessage` models
the presence of an `"Error Message"` key, `note` the presence of a
`"Note"` key, `timeSeries` the `"Time Series (Daily)"` object as a
date-keyed association list (a Python dict: keys are unique). -/
structure Payload where
  errorMessage : Option String
  note : Option String
  timeSeries : List (Nat × RawRecord)
deriving DecidableEq, Repr

/-- What the provider interaction produced: either a decoded payload,
or an exception inside the `try` block (transport failure, undecodable
body, unparsable numeric field) caught by the blanket `except`. -/
inductive ApiResponse where
  | raised
  | payload (p : Payload)
deriving DecidableEq, Repr

/-- A user-facing message emitted through `st.error` / `st.warning`
inside `fetch_stock_data`; these go to the UI, not to the caller. -/
inductive Msg where
  | errorFetching (symbol : String) (providerMessage : String)
  | rateLimitWarning
  | noDataFound (symbol : String)
  | exceptionError (symbol : String)
deriving DecidableEq, Repr

/-- Turn one date-keyed record into a DataFrame row. -/
def toRow (e : Nat × RawRecord) : Row :=
  { date := e.1, Open := e.2.Open, High := e.2.High, Low := e.2.Low,
    Close := e.2.Close, Volume := e.2.Volume }

/-- `df.sort_index()`: stable sort of the rows ascending by date. -/
def sortByDate (rows : List Row) : List Row :=
  List.insertionSort (fun a b => a.date ≤ b.date) rows

/-- `fetch_stock_data(symbol)` given the provider's response: the list
of messages pushed to the UI and the value returned to the caller
(`None` on every failure path, the sorted DataFrame rows on success).
The checks run in source order: `"Error Message"`, then `"Note"`, then
the emptiness of `"Time Series (Daily)"`. -/
def fetch_stock_data (symbol : String) (resp : ApiResponse) :
    List Msg × Option (List Row) :=
  match resp with
  | .raised => ([Msg.exceptionError symbol], none)
  | .payload p =>
    match p.errorMessage with
    | some m => ([Msg.errorFetching symbol m], none)
    | none =>
      match p.note with
      | some _ => ([Msg.rateLimitWarning], none)
      | none =>
        if p.timeSeries.isEmpty then ([Msg.noDataFound symbol], none)
        else ([], some (sortByDate (p.timeSeries.map toRow)))

/-- The ttl passed to `st.cache_data` (300 seconds). -/
def ttl : Nat := 300

/-- The state of the `st.cache_data` store for `fetch_stock_data`:
for each symbol already called, the pickled return value (which may be
`None` — Streamlit caches whatever the function returns) and the time
it was computed. -/
abbrev Cache := List (String × (Option (List Row) × Nat))

/-- Store a freshly computed result for a symbol, replacing any
previous entry for that symbol. -/
def cacheUpdate (c : Cache) (symbol : String) (v : Option (List Row)) (now : Nat) : Cache :=
  (symbol, (v, now)) :: c.filter (fun e => e.1 ≠ symbol)

/-- Look up the entry for a symbol. -/
def cacheLookup (c : Cache) (symbol : String) : Option (Option (List Row) × Nat) :=
  (c.find? (fun e => e.1 = symbol)).map Prod.snd

/-- One call to the `st.cache_data(ttl=300)`-wrapped `fetch_stock_data`
at time `now`: if a stored entry for the symbol is younger than `ttl`
it is returned as-is and the function body does not run; otherwise the
body runs (one network interaction), and its result — success or
`None` — replaces the entry.  Returns the value handed to the caller,
the new cache state, and how many times the body (hence the network)
was invoked by this call. -/
def cachedFetch (fetch : String → List Msg × Option (List Row))
    (c : Cache) (now : Nat) (symbol : String) :
    Option (List Row) × Cache × Nat :=
  match cacheLookup c symbol with
  | some (v, t) =>
    if now - t < ttl then (v, c, 0)
    else
      let r := (fetch symbol).2
      (r, cacheUpdate c symbol r now, 1)
  | none =>
    let r := (fetch symbol).2
    (r, cacheUpdate c symbol r now, 1)

/-- The placeholder the source compares the credential against. -/
def placeholderKey : String := "your_api_key_here"

/-- The credential check in `main`: `API_KEY == "your_api_key_here"`.
`API_KEY` is `os.getenv("ALPHA_VANTAGE_KEY")`, which is `None` when the
variable is absent, and in Python `None == "your_api_key_here"` is
`False`, so only the literal placeholder trips the check. -/
def apiKeyCheckHalts (apiKey : Option String) : Bool :=
  match apiKey with
  | some s => s = placeholderKey
  | none => false

/-- Whether `main` reaches the `fetch_stock_data` call: the `st.stop()`
guard did not fire and the symbol is truthy (the selectbox always
yields a non-empty symbol, and a custom symbol overrides it only when
non-empty). -/
def mainAttemptsFetch (apiKey : Option String) (symbol : String) : Bool :=
  !apiKeyCheckHalts apiKey && symbol != ""

/-- The character for a decimal digit (`0`–`9` at code points 48–57). -/
def digitChar (d : Nat) : Char := Char.ofNat (48 + d)

/-- The numeric value of a digit character. -/
def digitVal (c : Char) : Nat := c.toNat - 48

/-- Decimal rendering of a natural number (used for the date index
cell; the date ordinal prints injectively, as `YYYY-MM-DD` does). -/
def renderNat (n : Nat) : List Char :=
  if n = 0 then [digitChar 0] else (Nat.digits 10 n).reverse.map digitChar

/-- Decimal parsing of a cell of digit characters. -/
def parseNat (cs : List Char) : Nat :=
  cs.foldl (fun a c => 10 * a + digitVal c) 0

/-- Join parts with a separator character (commas within a line,
newlines between lines of the CSV text). -/
def joinSep (c : Char) : List (List Char) → List Char
  | [] => []
  | [x] => x
  | x :: y :: t => x ++ c :: joinSep c (y :: t)

/-- Split a character list at every occurrence of the separator. -/
def splitSep (c : Char) : List Char → List (List Char)
  | [] => [[]]
  | d :: ds =>
    if d = c then [] :: splitSep c ds
    else
      match splitSep c ds with
      | [] => [[d]]
      | a :: t => (d :: a) :: t

/-- Little-endian digits of `m`, zero-padded to at least `k + 1`
digits so a digit precedes the decimal point. -/
def scaledDigits (m k : Nat) : List Nat :=
  Nat.digits 10 m ++ List.replicate (k + 1 - (Nat.digits 10 m).length) 0

/-- The padded digits as display (big-endian) characters. -/
def scaledChars (m k : Nat) : List Char :=
  (scaledDigits m k).reverse.map digitChar

/-- The characters before the decimal point. -/
def intPartChars (m k : Nat) : List Char :=
  (scaledChars m k).take ((scaledChars m k).length - k)

/-- The `k` characters after the decimal point. -/
def fracPartChars (m k : Nat) : List Char :=
  (scaledChars m k).drop ((scaledChars m k).length - k)

/-- Fixed-point decimal rendering of the non-negative number
`m / 10 ^ k`: the digits of `m`, zero-padded so that at least one digit
precedes the decimal point, with the point `k` digits from the end. -/
def renderScaled (m k : Nat) : List Char :=
  intPartChars m k ++ '.' :: fracPartChars m k

/-- The decimal exponent used to print a rational cell value.  Every
value the dashboard prints came from a finite decimal string of the
provider, so its reduced denominator `d` divides `10 ^ d`, and `d`
itself is a large enough exponent. -/
def decExp (q : ℚ) : Nat := q.den

/-- `q` has a finite decimal expansion. -/
def IsDec (q : ℚ) : Prop := q.den ∣ 10 ^ q.den

instance (q : ℚ) : Decidable (IsDec q) := by unfold IsDec; infer_instance

/-- Render one numeric cell the way `df.to_csv()` prints a float:
as a finite decimal, with a leading minus sign when negative. -/
def renderRatCell (q : ℚ) : List Char :=
  if q < 0 then '-' :: renderScaled (q * 10 ^ decExp q).num.natAbs (decExp q)
  else renderScaled (q * 10 ^ decExp q).num.natAbs (decExp q)

/-- Parse an unsigned decimal cell: either a plain integer or
`intpart.fracpart`. -/
def parseRatCellAbs (cs : List Char) : Option ℚ :=
  match splitSep '.' cs with
  | [a] => some ((parseNat a : ℚ))
  | [a, b] => some (((parseNat a * 10 ^ b.length + parseNat b : ℕ) : ℚ) / (10 ^ b.length : ℚ))
  | _ => none

/-- Parse a numeric cell as `pd.read_csv` decodes it, sign included. -/
def parseRatCell (cs : List Char) : Option ℚ :=
  match cs with
  | [] => none
  | c :: t => if c = '-' then (parseRatCellAbs t).map Neg.neg else parseRatCellAbs (c :: t)

/-- The header cells `df.to_csv()` writes: an unnamed index column
followed by the five column names. -/
def headerCells : List (List Char) :=
  [[], "Open".toList, "High".toList, "Low".toList, "Close".toList, "Volume".toList]

/-- The cells of one exported row: date index then the five columns. -/
def rowCells (r : Row) : List (List Char) :=
  [renderNat r.date, renderRatCell r.Open, renderRatCell r.High,
   renderRatCell r.Low, renderRatCell r.Close, renderRatCell r.Volume]

/-- `df.to_csv()`: the header line, one comma-joined line per bar,
newline-separated, with a trailing final newline. -/
def toCsv (rows : List Row) : List Char :=
  joinSep '\n' ((headerCells :: rows.map rowCells).map (joinSep ',')) ++ ['\n']

/-- Parse one data line back into a row. -/
def parseLine (l : List Char) : Option Row :=
  match splitSep ',' l with
  | [d, o, h, lo, c, v] => do
    let oq ← parseRatCell o
    let hq ← parseRatCell h
    let lq ← parseRatCell lo
    let cq ← parseRatCell c
    let vq ← parseRatCell v
    some { date := parseNat d, Open := oq, High := hq, Low := lq, Close := cq, Volume := vq }
  | _ => none

/-- Re-import of the exported artifact (`pd.read_csv` with the first
column as index): split into lines, skip blank lines (pandas'
`skip_blank_lines` default), check the header, parse each data line. -/
def readCsv (cs : List Char) : Option (List Row) :=
  match (splitSep '\n' cs).filter (fun l => !l.isEmpty) with
  | [] => none
  | hdr :: body =>
    if hdr = joinSep ',' headerCells then body.mapM parseLine else none

/-! ## Helper lemmas -/

theorem cacheLookup_cacheUpdate (c : Cache) (s : String) (v : Option (List Row)) (now : Nat) :
    cacheLookup (cacheUpdate c s v now) s = some (v, now) := by
  simp [cacheLookup, cacheUpdate, List.find?]

/-- A response shape on which `fetch_stock_data` takes a failure path:
an exception, a provider error message, a rate-limit note, or an empty
time series. -/
def failureResponse (resp : ApiResponse) : Bool :=
  match resp with
  | .raised => true
  | .payload p => p.errorMessage.isSome || p.note.isSome || p.timeSeries.isEmpty

theorem fetch_none_of_failureResponse (symbol : String) (resp : ApiResponse)
    (h : failureResponse resp = true) : (fetch_stock_data symbol resp).2 = none := by
  cases resp with
  | raised => rfl
  | payload p =>
    rcases p with ⟨em, nt, ts⟩
    cases em with
    | some m => rfl
    | none =>
      cases nt with
      | some n => rfl
      | none =>
        simp [failureResponse] at h
        simp [fetch_stock_data, h]

/-! ## Claim theorems: caching and configuration -/

/-- C2 (counterexample): an expired entry holding a previously valid
snapshot is NOT preserved when the re-fetch fails — the cache afterwards
maps the symbol to the failure value `none` with a fresh timestamp, and
the old snapshot is gone. -/
theorem stale_entry_evicted_on_failed_refetch :
    (cachedFetch (fun s => ([Msg.exceptionError s], none))
        [("AAPL", (some [⟨1, 10, 12, 9, 11, 100⟩], 0))] 300 "AAPL").2.1 =
      [("AAPL", (none, 300))] ∧
    cacheLookup (cachedFetch (fun s => ([Msg.exceptionError s], none))
        [("AAPL", (some [⟨1, 10, 12, 9, 11, 100⟩], 0))] 300 "AAPL").2.1 "AAPL" ≠
      some (some [⟨1, 10, 12, 9, 11, 100⟩], 0) := by
  decide

/-- C2 (amended): when the entry for a symbol has expired and the
re-fetch fails, the failure value `none` is returned to the caller AND
is stored in place of the prior snapshot — the stale series is evicted,
not preserved. -/
theorem expired_refetch_failure_replaces_stale_entry
    (fetch : String → List Msg × Option (List Row)) (c : Cache) (now : Nat)
    (s : String) (v : Option (List Row)) (t : Nat)
    (hold : cacheLookup c s = some (v, t)) (hexp : ttl ≤ now - t)
    (hfail : (fetch s).2 = none) :
    (cachedFetch fetch c now s).1 = none ∧
    cacheLookup (cachedFetch fetch c now s).2.1 s = some (none, now) := by
  unfold cachedFetch
  rw [hold]
  have hlt : ¬ (now - t < ttl) := not_lt.mpr hexp
  simp [hlt, hfail, cacheLookup_cacheUpdate]

/-- A mock fetch function that always fails (used by witnesses). -/
def fetchFailW : String → List Msg × Option (List Row) := fun _ => ([], none)

/-- A mock fetch function that always succeeds with one fixed bar. -/
def fetchOkW : String → List Msg × Option (List Row) :=
  fun _ => ([], some [⟨7, 1, 2, 1, 2, 50⟩])

/-- A one-entry cache holding a valid snapshot fetched at time 2. -/
def cacheW : Cache := [("IBM", (some [⟨1, 10, 12, 9, 11, 100⟩], 2))]

theorem expired_refetch_failure_replaces_stale_entry_witness :
    (cacheLookup cacheW "IBM" = some (some [⟨1, 10, 12, 9, 11, 100⟩], 2) ∧
      ttl ≤ 302 - 2 ∧ (fetchFailW "IBM").2 = none) ∧
    ((cachedFetch fetchFailW cacheW 302 "IBM").1 = none ∧
      cacheLookup (cachedFetch fetchFailW cacheW 302 "IBM").2.1 "IBM" = some (none, 302)) :=
  ⟨⟨by decide, by decide, rfl⟩,
    expired_refetch_failure_replaces_stale_entry fetchFailW cacheW 302 "IBM"
      (some [⟨1, 10, 12, 9, 11, 100⟩]) 2 (by decide) (by decide) rfl⟩

/-- C5 (confirmed): starting with no entry for the symbol, a first call
at `t0` runs the body once, and a second call at `t1` within the ttl
window returns the identical series while running the body zero times
— exactly one network request across the two calls. -/
theorem cached_fetch_single_request_within_ttl
    (fetch : String → List Msg × Option (List Row)) (c : Cache) (s : String)
    (t0 t1 : Nat) (rows : List Row)
    (hcold : cacheLookup c s = none) (hsucc : (fetch s).2 = some rows)
    (hle : t0 ≤ t1) (httl : t1 - t0 < ttl) :
    (cachedFetch fetch c t0 s).1 = some rows ∧
    (cachedFetch fetch c t0 s).2.2 = 1 ∧
    (cachedFetch fetch (cachedFetch fetch c t0 s).2.1 t1 s).1 = some rows ∧
    (cachedFetch fetch (cachedFetch fetch c t0 s).2.1 t1 s).2.2 = 0 := by
  have hfirst : cachedFetch fetch c t0 s =
      (some rows, cacheUpdate c s (some rows) t0, 1) := by
    unfold cachedFetch
    rw [hcold, hsucc]
  have hsecond : cachedFetch fetch (cacheUpdate c s (some rows) t0) t1 s =
      (some rows, cacheUpdate c s (some rows) t0, 0) := by
    unfold cachedFetch
    rw [cacheLookup_cacheUpdate]
    simp [httl]
  refine ⟨by rw [hfirst], by rw [hfirst], ?_, ?_⟩
  · rw [hfirst]
    show (cachedFetch fetch (cacheUpdate c s (some rows) t0) t1 s).1 = some rows
    rw [hsecond]
  · rw [hfirst]
    show (cachedFetch fetch (cacheUpdate c s (some rows) t0) t1 s).2.2 = 0
    rw [hsecond]

theorem cached_fetch_single_request_within_ttl_witness :
    (cacheLookup [] "TSLA" = none ∧
      (fetchOkW "TSLA").2 = some [⟨7, 1, 2, 1, 2, 50⟩] ∧ 10 ≤ 100 ∧ 100 - 10 < ttl) ∧
    ((cachedFetch fetchOkW [] 10 "TSLA").1 = some [⟨7, 1, 2, 1, 2, 50⟩] ∧
      (cachedFetch fetchOkW [] 10 "TSLA").2.2 = 1 ∧
      (cachedFetch fetchOkW (cachedFetch fetchOkW [] 10 "TSLA").2.1 100 "TSLA").1 =
        some [⟨7, 1, 2, 1, 2, 50⟩] ∧
      (cachedFetch fetchOkW (cachedFetch fetchOkW [] 10 "TSLA").2.1 100 "TSLA").2.2 = 0) :=
  ⟨⟨by decide, rfl, by decide, by decide⟩,
    cached_fetch_single_request_within_ttl fetchOkW [] "TSLA" 10 100
      [⟨7, 1, 2, 1, 2, 50⟩] (by decide) rfl (by decide) (by decide)⟩

/-- C10 (confirmed): a fetch that ends in any failure (exception,
provider error message, rate-limit note, or empty time series) returns
`None`, and that `None` is itself stored by the cache: a subsequent
call for the same symbol within the ttl serves the cached `None`
without running the body again. -/
theorem failed_fetch_none_is_cached_within_ttl
    (symbol : String) (resp : ApiResponse) (c : Cache) (t0 t1 : Nat)
    (hfail : failureResponse resp = true) (hcold : cacheLookup c symbol = none)
    (hle : t0 ≤ t1) (httl : t1 - t0 < ttl) :
    (cachedFetch (fun s => fetch_stock_data s resp) c t0 symbol).1 = none ∧
    cacheLookup (cachedFetch (fun s => fetch_stock_data s resp) c t0 symbol).2.1 symbol =
      some (none, t0) ∧
    (cachedFetch (fun s => fetch_stock_data s resp)
      (cachedFetch (fun s => fetch_stock_data s resp) c t0 symbol).2.1 t1 symbol).1 = none ∧
    (cachedFetch (fun s => fetch_stock_data s resp)
      (cachedFetch (fun s => fetch_stock_data s resp) c t0 symbol).2.1 t1 symbol).2.2 = 0 := by
  have hnone : ((fun s => fetch_stock_data s resp) symbol).2 = none :=
    fetch_none_of_failureResponse symbol resp hfail
  have hfirst : cachedFetch (fun s => fetch_stock_data s resp) c t0 symbol =
      (none, cacheUpdate c symbol none t0, 1) := by
    unfold cachedFetch
    rw [hcold, hnone]
  have hsecond : cachedFetch (fun s => fetch_stock_data s resp)
      (cacheUpdate c symbol none t0) t1 symbol =
      (none, cacheUpdate c symbol none t0, 0) := by
    unfold cachedFetch
    rw [cacheLookup_cacheUpdate]
    simp [httl]
  refine ⟨by rw [hfirst], ?_, ?_, ?_⟩
  · rw [hfirst]
    exact cacheLookup_cacheUpdate c symbol none t0
  · rw [hfirst]
    show (cachedFetch (fun s => fetch_stock_data s resp)
      (cacheUpdate c symbol none t0) t1 symbol).1 = none
    rw [hsecond]
  · rw [hfirst]
    show (cachedFetch (fun s => fetch_stock_data s resp)
      (cacheUpdate c symbol none t0) t1 symbol).2.2 = 0
    rw [hsecond]

theorem failed_fetch_none_is_cached_within_ttl_witness :
    (failureResponse (.payload ⟨none, some "limit", []⟩) = true ∧
      cacheLookup [] "NVDA" = none ∧ 0 ≤ 5 ∧ 5 - 0 < ttl) ∧
    ((cachedFetch (fun s => fetch_stock_data s (.payload ⟨none, some "limit", []⟩))
        [] 0 "NVDA").1 = none ∧
      cacheLookup (cachedFetch (fun s => fetch_stock_data s (.payload ⟨none, some "limit", []⟩))
        [] 0 "NVDA").2.1 "NVDA" = some (none, 0) ∧
      (cachedFetch (fun s => fetch_stock_data s (.payload ⟨none, some "limit", []⟩))
        (cachedFetch (fun s => fetch_stock_data s (.payload ⟨none, some "limit", []⟩))
          [] 0 "NVDA").2.1 5 "NVDA").1 = none ∧
      (cachedFetch (fun s => fetch_stock_data s (.payload ⟨none, some "limit", []⟩))
        (cachedFetch (fun s => fetch_stock_data s (.payload ⟨none, some "limit", []⟩))
          [] 0 "NVDA").2.1 5 "NVDA").2.2 = 0) :=
  ⟨⟨by decide, by decide, by decide, by decide⟩,
    failed_fetch_none_is_cached_within_ttl "NVDA" (.payload ⟨none, some "limit", []⟩)
      [] 0 5 (by decide) (by decide) (by decide) (by decide)⟩

/-- C4 (counterexample): an absent credential (`os.getenv` returning
`None`) does not trip the placeholder check, and `main` proceeds to the
fetch. -/
theorem absent_key_does_not_halt :
    apiKeyCheckHalts none = false ∧ mainAttemptsFetch none "AAPL" = true := by
  decide

/-- C4 (amended): only a credential equal to the literal placeholder
halts `main` before any fetch; any other credential state — including
an absent one — passes the check, and the fetch is attempted for the
(always non-empty) selected symbol. -/
theorem only_placeholder_key_halts_before_fetch
    (apiKey : Option String) (symbol : String) :
    (apiKey = some placeholderKey → mainAttemptsFetch apiKey symbol = false) ∧
    (apiKey ≠ some placeholderKey → symbol ≠ "" → mainAttemptsFetch apiKey symbol = true) := by
  constructor
  · intro h
    subst h
    simp [mainAttemptsFetch, apiKeyCheckHalts]
  · intro h hs
    cases apiKey with
    | none => simp [mainAttemptsFetch, apiKeyCheckHalts, hs]
    | some k =>
      have hk : k ≠ placeholderKey := fun hk => h (by rw [hk])
      simp [mainAttemptsFetch, apiKeyCheckHalts, hk, hs]

theorem only_placeholder_key_halts_before_fetch_witness :
    (mainAttemptsFetch (some placeholderKey) "AAPL" = false) ∧
    ((none : Option String) ≠ some placeholderKey ∧ "AAPL" ≠ "" ∧
      mainAttemptsFetch none "AAPL" = true) :=
  ⟨(only_placeholder_key_halts_before_fetch (some placeholderKey) "AAPL").1 rfl,
    by decide, by decide,
    (only_placeholder_key_halts_before_fetch none "AAPL").2 (by decide) (by decide)⟩

/-! ## Claim theorems: metrics -/

theorem rollingMean_getLastD (w : Nat) (xs : List ℚ) (hx : xs ≠ []) :
    (rollingMean w xs).getLastD none =
      if xs.length < w then none
      else some ((xs.drop (xs.length - w)).sum / (w : ℚ)) := by
  have hpos : 0 < xs.length := List.length_pos.mpr hx
  have hn : xs.length - 1 + 1 = xs.length := Nat.succ_pred_eq_of_pos hpos
  have hlast : (rollingMean w xs).getLastD none =
      if xs.length - 1 + 1 < w then none
      else some (((xs.take (xs.length - 1 + 1)).drop (xs.length - 1 + 1 - w)).sum / (w : ℚ)) := by
    rw [List.getLastD_eq_getLast?, List.getLast?_eq_getElem?]
    have hlen : (rollingMean w xs).length = xs.length := by
      simp [rollingMean]
    rw [hlen]
    have hidx : xs.length - 1 < xs.length := Nat.sub_lt hpos one_pos
    rw [rollingMean, List.getElem?_map, List.getElem?_range hidx]
    rfl
  rw [hlast, hn, List.take_length]

/-- How `pfScale 100 ∘ pfDivQ` classifies a percent change: finite for
a non-zero denominator, `±inf` for a non-zero numerator over zero, and
`nan` only for `0 / 0`. -/
theorem pf_classify (d p : ℚ) :
    (p ≠ 0 → pfScale 100 (pfDivQ d p) = .fin (100 * (d / p))) ∧
    (p = 0 → 0 < d → pfScale 100 (pfDivQ d p) = .inf) ∧
    (p = 0 → d < 0 → pfScale 100 (pfDivQ d p) = .ninf) ∧
    (p = 0 → d = 0 → pfScale 100 (pfDivQ d p) = .nan) := by
  refine ⟨fun hp => ?_, fun hp hd => ?_, fun hp hd => ?_, fun hp hd => ?_⟩
  · simp [pfDivQ, hp, pfScale]
  · simp [pfDivQ, hp, hd, pfScale]
  · have hnd : ¬ (0 < d) := not_lt.mpr (le_of_lt hd)
    simp [pfDivQ, hp, hd, hnd, pfScale]
  · simp [pfDivQ, hp, hd, pfScale]

/-- C1 (counterexample): the caller's frame is NOT left unchanged by
`calculate_metrics` — on a one-bar frame with no derived columns, the
returned frame differs from the input frame. -/
def dfC1 : DF := ⟨[⟨1, 10, 12, 9, 11, 100⟩], none, none, none⟩

theorem calculate_metrics_changes_callers_frame :
    (calculate_metrics dfC1).2 ≠ dfC1 := by
  decide

/-- C1 (amended): `calculate_metrics` leaves the base OHLCV rows of the
frame unchanged, but it writes the derived columns (`MA_20`, `MA_50`,
`Daily_Return`) into the caller's frame in place — the caller's series
object is mutated, not left unchanged, whenever it has at least one
row. -/
theorem calculate_metrics_mutates_frame_in_place (df : DF) (h : df.rows ≠ []) :
    (calculate_metrics df).2.rows = df.rows ∧
    (calculate_metrics df).2.MA_20 = some (rollingMean 20 (df.rows.map Row.Close)) ∧
    (calculate_metrics df).2.MA_50 = some (rollingMean 50 (df.rows.map Row.Close)) ∧
    (calculate_metrics df).2.Daily_Return = some (pctChange (df.rows.map Row.Close)) := by
  obtain ⟨rows, m1, m2, m3⟩ := df
  cases rows with
  | nil => exact absurd rfl h
  | cons r0 rest => exact ⟨rfl, rfl, rfl, rfl⟩

/-- A two-bar frame without derived columns, for witnesses. -/
def dfW1 : DF := ⟨[⟨1, 10, 12, 9, 11, 100⟩, ⟨2, 10, 13, 9, 12, 200⟩], none, none, none⟩

theorem calculate_metrics_mutates_frame_in_place_witness :
    dfW1.rows ≠ [] ∧
    ((calculate_metrics dfW1).2.rows = dfW1.rows ∧
      (calculate_metrics dfW1).2.MA_20 = some (rollingMean 20 (dfW1.rows.map Row.Close)) ∧
      (calculate_metrics dfW1).2.MA_50 = some (rollingMean 50 (dfW1.rows.map Row.Close)) ∧
      (calculate_metrics dfW1).2.Daily_Return = some (pctChange (dfW1.rows.map Row.Close))) :=
  ⟨by decide, calculate_metrics_mutates_frame_in_place dfW1 (by decide)⟩

/-- C7 (confirmed): the `ma_20` (resp. `ma_50`) metric is absent when
the windowed series has fewer than 20 (resp. 50) bars, and otherwise
equals the arithmetic mean of Close over the last 20 (resp. 50) bars
ending at the final bar. -/
theorem ma_metrics_absent_below_window_else_mean (df : DF) (m : Metrics)
    (h : (calculate_metrics df).1 = some m) :
    (df.rows.length < 20 → m.ma_20 = none) ∧
    (20 ≤ df.rows.length →
      m.ma_20 = some (((df.rows.map Row.Close).drop (df.rows.length - 20)).sum / (20 : ℚ))) ∧
    (df.rows.length < 50 → m.ma_50 = none) ∧
    (50 ≤ df.rows.length →
      m.ma_50 = some (((df.rows.map Row.Close).drop (df.rows.length - 50)).sum / (50 : ℚ))) := by
  obtain ⟨rows, m1, m2, m3⟩ := df
  cases rows with
  | nil => simp [calculate_metrics] at h
  | cons r0 rest =>
    have hm : m = metricsOf r0 rest := by
      simp [calculate_metrics] at h
      exact h.symm
    subst hm
    have hcl : ((r0 :: rest).map Row.Close) ≠ [] := by simp
    have hlen : ((r0 :: rest).map Row.Close).length = (r0 :: rest).length := by simp
    have h20 : (metricsOf r0 rest).ma_20 =
        (rollingMean 20 ((r0 :: rest).map Row.Close)).getLastD none := rfl
    have h50 : (metricsOf r0 rest).ma_50 =
        (rollingMean 50 ((r0 :: rest).map Row.Close)).getLastD none := rfl
    rw [h20, h50, rollingMean_getLastD 20 _ hcl, rollingMean_getLastD 50 _ hcl, hlen]
    refine ⟨fun hlt => ?_, fun hge => ?_, fun hlt => ?_, fun hge => ?_⟩
    · rw [if_pos hlt]
    · rw [if_neg (not_lt.mpr hge)]
      norm_num
    · rw [if_pos hlt]
    · rw [if_neg (not_lt.mpr hge)]
      norm_num

/-- The 19 trailing bars of the 20-bar witness frame (constant Close
100, the reference test vector for `ma_20 = 100`). -/
def rowsW20tail : List Row :=
  [⟨1, 100, 100, 100, 100, 1000⟩, ⟨2, 100, 100, 100, 100, 1000⟩,
   ⟨3, 100, 100, 100, 100, 1000⟩, ⟨4, 100, 100, 100, 100, 1000⟩,
   ⟨5, 100, 100, 100, 100, 1000⟩, ⟨6, 100, 100, 100, 100, 1000⟩,
   ⟨7, 100, 100, 100, 100, 1000⟩, ⟨8, 100, 100, 100, 100, 1000⟩,
   ⟨9, 100, 100, 100, 100, 1000⟩, ⟨10, 100, 100, 100, 100, 1000⟩,
   ⟨11, 100, 100, 100, 100, 1000⟩, ⟨12, 100, 100, 100, 100, 1000⟩,
   ⟨13, 100, 100, 100, 100, 1000⟩, ⟨14, 100, 100, 100, 100, 1000⟩,
   ⟨15, 100, 100, 100, 100, 1000⟩, ⟨16, 100, 100, 100, 100, 1000⟩,
   ⟨17, 100, 100, 100, 100, 1000⟩, ⟨18, 100, 100, 100, 100, 1000⟩,
   ⟨19, 100, 100, 100, 100, 1000⟩]

/-- A 20-bar frame of constant Close 100, for witnesses. -/
def dfW20 : DF := ⟨⟨0, 100, 100, 100, 100, 1000⟩ :: rowsW20tail, none, none, none⟩

/-- The metrics dict `calculate_metrics` produces on `dfW20`. -/
def mW20 : Metrics := metricsOf ⟨0, 100, 100, 100, 100, 1000⟩ rowsW20tail

theorem ma_metrics_absent_below_window_else_mean_witness :
    (calculate_metrics dfW20).1 = some mW20 ∧ 20 ≤ dfW20.rows.length ∧
    dfW20.rows.length < 50 ∧
    mW20.ma_20 = some (((dfW20.rows.map Row.Close).drop (dfW20.rows.length - 20)).sum / (20 : ℚ)) ∧
    mW20.ma_50 = none :=
  ⟨rfl, by decide, by decide,
    (ma_metrics_absent_below_window_else_mean dfW20 mW20 rfl).2.1 (by decide),
    (ma_metrics_absent_below_window_else_mean dfW20 mW20 rfl).2.2.1 (by decide)⟩

/-- C8 (counterexample): with a zero previous price and a positive
change, `daily_change_pct` is reported as `inf` — present in the
metrics dict and not a NaN — contradicting "not-a-number or omitted". -/
def dfC8 : DF := ⟨[⟨1, 10, 12, 9, 0, 100⟩, ⟨2, 10, 12, 9, 5, 100⟩], none, none, none⟩

theorem zero_previous_price_reports_inf_not_nan :
    ((calculate_metrics dfC8).1).map Metrics.daily_change_pct = some PyFloat.inf ∧
    PyFloat.inf ≠ PyFloat.nan := by
  with_unfolding_all decide

/-- C8 (amended): the metrics computation is a total function that
returns the empty result for an empty or missing frame and a full
metrics dict otherwise (no input makes it raise), but an undefined
ratio is reported as NaN only when the change is also zero: a non-zero
change over a zero previous price is reported as `inf` / `-inf`, and a
non-zero previous price always yields a finite percent change. -/
theorem metrics_total_pct_change_classification (df : DF) :
    ((calculate_metrics df).1 = none ↔ df.rows = []) ∧
    (∀ m, (calculate_metrics df).1 = some m →
      ((m.current_price - m.daily_change ≠ 0 →
          m.daily_change_pct =
            .fin (100 * (m.daily_change / (m.current_price - m.daily_change)))) ∧
       (m.current_price - m.daily_change = 0 → 0 < m.daily_change →
          m.daily_change_pct = .inf) ∧
       (m.current_price - m.daily_change = 0 → m.daily_change < 0 →
          m.daily_change_pct = .ninf) ∧
       (m.current_price - m.daily_change = 0 → m.daily_change = 0 →
          m.daily_change_pct = .nan))) := by
  obtain ⟨rows, m1, m2, m3⟩ := df
  cases rows with
  | nil =>
    refine ⟨by simp [calculate_metrics], fun m hm => ?_⟩
    simp [calculate_metrics] at hm
  | cons r0 rest =>
    refine ⟨by simp [calculate_metrics], fun m hm => ?_⟩
    have hm2 : m = metricsOf r0 rest := by
      simp [calculate_metrics] at hm
      exact hm.symm
    subst hm2
    set closes := (r0 :: rest).map Row.Close with hc
    set latest := closes.getLastD r0.Close with hl
    set prev :=
      if 1 < (r0 :: rest).length then closes.getD (closes.length - 2) latest
      else latest with hp
    have hcur : (metricsOf r0 rest).current_price = latest := rfl
    have hchg : (metricsOf r0 rest).daily_change = latest - prev := rfl
    have hpct : (metricsOf r0 rest).daily_change_pct =
        pfScale 100 (pfDivQ (latest - prev) prev) := rfl
    have hsub : (metricsOf r0 rest).current_price - (metricsOf r0 rest).daily_change = prev := by
      rw [hcur, hchg]
      ring
    rw [hsub, hchg, hpct]
    exact pf_classify (latest - prev) prev

/-- The metrics dict `calculate_metrics` produces on `dfW1`. -/
def mW1 : Metrics := metricsOf ⟨1, 10, 12, 9, 11, 100⟩ [⟨2, 10, 13, 9, 12, 200⟩]

theorem metrics_total_pct_change_classification_witness :
    (calculate_metrics dfW1).1 = some mW1 ∧ mW1.current_price - mW1.daily_change ≠ 0 ∧
    mW1.daily_change_pct =
      .fin (100 * (mW1.daily_change / (mW1.current_price - mW1.daily_change))) :=
  ⟨rfl, by with_unfolding_all decide,
    ((metrics_total_pct_change_classification dfW1).2 mW1 rfl).1
      (by with_unfolding_all decide)⟩

/-! ## Claim theorems: fetch classification and ordering -/

/-- C3 (counterexample): the four failure kinds all return the same
value `None` to the caller — an `"Error Message"` payload, a `"Note"`
payload, an empty time series, and a raised transport exception are
indistinguishable from the return value alone. -/
theorem fetch_failure_kinds_return_identical_none :
    (fetch_stock_data "MSFT" (.payload ⟨some "Invalid API call", none, []⟩)).2 = none ∧
    (fetch_stock_data "MSFT" (.payload ⟨none, some "rate limit", []⟩)).2 = none ∧
    (fetch_stock_data "MSFT" (.payload ⟨none, none, []⟩)).2 = none ∧
    (fetch_stock_data "MSFT" ApiResponse.raised).2 = none ∧
    (fetch_stock_data "MSFT" (.payload ⟨some "Invalid API call", none, []⟩)).2 =
      (fetch_stock_data "MSFT" (.payload ⟨none, some "rate limit", []⟩)).2 := by
  exact ⟨rfl, rfl, rfl, rfl, rfl⟩

/-- C3 (amended): `fetch_stock_data` does classify the payload in the
source's priority order — error message, then note, then empty series —
but the classification is only emitted as a user-interface message
(`st.error` / `st.warning`); the value returned to the caller is the
same `None` for every failure kind, so the kinds are not
distinguishable from the return value. -/
theorem fetch_failures_classified_by_message_not_return
    (symbol : String) (p : Payload) :
    (∀ m, p.errorMessage = some m →
      fetch_stock_data symbol (.payload p) = ([Msg.errorFetching symbol m], none)) ∧
    (p.errorMessage = none → ∀ n, p.note = some n →
      fetch_stock_data symbol (.payload p) = ([Msg.rateLimitWarning], none)) ∧
    (p.errorMessage = none → p.note = none → p.timeSeries = [] →
      fetch_stock_data symbol (.payload p) = ([Msg.noDataFound symbol], none)) ∧
    fetch_stock_data symbol ApiResponse.raised = ([Msg.exceptionError symbol], none) := by
  obtain ⟨em, nt, ts⟩ := p
  refine ⟨fun m hm => ?_, fun he n hn => ?_, fun he hn hts => ?_, rfl⟩
  · cases hm
    rfl
  · cases he
    cases hn
    rfl
  · cases he
    cases hn
    cases hts
    rfl

theorem fetch_failures_classified_by_message_not_return_witness :
    ((⟨some "bad symbol", none, []⟩ : Payload).errorMessage = some "bad symbol" ∧
      fetch_stock_data "GOOG" (.payload ⟨some "bad symbol", none, []⟩) =
        ([Msg.errorFetching "GOOG" "bad symbol"], none)) ∧
    ((⟨none, some "wait", []⟩ : Payload).errorMessage = none ∧
      (⟨none, some "wait", []⟩ : Payload).note = some "wait" ∧
      fetch_stock_data "GOOG" (.payload ⟨none, some "wait", []⟩) =
        ([Msg.rateLimitWarning], none)) :=
  ⟨⟨rfl, (fetch_failures_classified_by_message_not_return "GOOG"
      ⟨some "bad symbol", none, []⟩).1 "bad symbol" rfl⟩,
   ⟨rfl, rfl, (fetch_failures_classified_by_message_not_return "GOOG"
      ⟨none, some "wait", []⟩).2.1 rfl "wait" rfl⟩⟩

instance : IsTotal Row (fun a b => a.date ≤ b.date) :=
  ⟨fun a b => Nat.le_total a.date b.date⟩

instance : IsTrans Row (fun a b => a.date ≤ b.date) :=
  ⟨fun _ _ _ h1 h2 => Nat.le_trans h1 h2⟩

/-- C6 (confirmed): a successful fetch returns rows sorted strictly
ascending by date, whatever the order of the provider's date-keyed
records (which, coming from a dict, have pairwise distinct keys). -/
theorem fetch_success_rows_sorted_by_date
    (symbol : String) (p : Payload) (rows : List Row)
    (hnd : (p.timeSeries.map Prod.fst).Nodup)
    (h : (fetch_stock_data symbol (.payload p)).2 = some rows) :
    List.Pairwise (· < ·) (rows.map Row.date) := by
  obtain ⟨em, nt, ts⟩ := p
  cases em with
  | some m => simp [fetch_stock_data] at h
  | none =>
    cases nt with
    | some n => simp [fetch_stock_data] at h
    | none =>
      by_cases hts : ts.isEmpty
      · simp [fetch_stock_data, hts] at h
      · rw [fetch_stock_data] at h
        simp only [hts, Bool.false_eq_true, if_false, Option.some.injEq] at h
        subst h
        show List.Pairwise (· < ·)
          ((List.insertionSort (fun a b : Row => a.date ≤ b.date) (ts.map toRow)).map Row.date)
        have hsorted : List.Pairwise (fun a b : Row => a.date ≤ b.date)
            (List.insertionSort (fun a b : Row => a.date ≤ b.date) (ts.map toRow)) :=
          List.sorted_insertionSort (fun a b : Row => a.date ≤ b.date) (ts.map toRow)
        have hperm :
            (List.insertionSort (fun a b : Row => a.date ≤ b.date) (ts.map toRow)).Perm
              (ts.map toRow) :=
          List.perm_insertionSort (fun a b : Row => a.date ≤ b.date) (ts.map toRow)
        have hdates : ((ts.map toRow).map Row.date) = ts.map Prod.fst := by
          rw [List.map_map]
          rfl
        have hnodup :
            ((List.insertionSort (fun a b : Row => a.date ≤ b.date) (ts.map toRow)).map
              Row.date).Nodup := by
          refine ((List.Perm.map Row.date hperm).symm).nodup ?_
          rw [hdates]
          exact hnd
        have hle : List.Pairwise (· ≤ ·)
            ((List.insertionSort (fun a b : Row => a.date ≤ b.date) (ts.map toRow)).map
              Row.date) :=
          List.pairwise_map.mpr hsorted
        have hne : List.Pairwise (· ≠ ·)
            ((List.insertionSort (fun a b : Row => a.date ≤ b.date) (ts.map toRow)).map
              Row.date) :=
          hnodup
        exact (hle.and hne).imp (fun hab => lt_of_le_of_ne hab.1 hab.2)

/-- A payload whose records arrive in shuffled (descending-ish) date
order, for the sorting witness. -/
def payloadW : Payload :=
  ⟨none, none, [(3, ⟨1, 2, 1, 2, 5⟩), (1, ⟨1, 2, 1, 2, 5⟩), (2, ⟨9, 9, 9, 9, 9⟩)]⟩

theorem fetch_success_rows_sorted_by_date_witness :
    ((payloadW.timeSeries.map Prod.fst).Nodup ∧
      (fetch_stock_data "AMZN" (.payload payloadW)).2 =
        some [⟨1, 1, 2, 1, 2, 5⟩, ⟨2, 9, 9, 9, 9, 9⟩, ⟨3, 1, 2, 1, 2, 5⟩]) ∧
    List.Pairwise (· < ·)
      (([⟨1, 1, 2, 1, 2, 5⟩, ⟨2, 9, 9, 9, 9, 9⟩, ⟨3, 1, 2, 1, 2, 5⟩] : List Row).map Row.date) :=
  ⟨⟨by decide, by with_unfolding_all decide⟩,
    fetch_success_rows_sorted_by_date "AMZN" payloadW
      [⟨1, 1, 2, 1, 2, 5⟩, ⟨2, 9, 9, 9, 9, 9⟩, ⟨3, 1, 2, 1, 2, 5⟩]
      (by decide) (by with_unfolding_all decide)⟩

/-! ## CSV round-trip: digit and separator lemmas -/

theorem digitChar_toNat (d : Nat) (hd : d < 10) : (digitChar d).toNat = 48 + d := by
  interval_cases d <;> rfl

theorem digitVal_digitChar (d : Nat) (hd : d < 10) : digitVal (digitChar d) = d := by
  unfold digitVal
  rw [digitChar_toNat d hd]
  omega

theorem digitChar_ne_low (d : Nat) (hd : d < 10) (c : Char) (hc : c.toNat < 48) :
    digitChar d ≠ c := by
  intro h
  have h2 := congrArg Char.toNat h
  rw [digitChar_toNat d hd] at h2
  omega

theorem parseNat_shift (b : List Char) (x : Nat) :
    List.foldl (fun a c => 10 * a + digitVal c) x b = x * 10 ^ b.length + parseNat b := by
  induction b generalizing x with
  | nil => simp [parseNat]
  | cons c t ih =>
    simp only [List.foldl_cons, List.length_cons]
    rw [ih (10 * x + digitVal c)]
    have hpc : parseNat (c :: t) = digitVal c * 10 ^ t.length + parseNat t := by
      unfold parseNat
      simp only [List.foldl_cons, Nat.mul_zero, Nat.zero_add]
      exact ih (digitVal c)
    rw [hpc]
    ring

theorem parseNat_append (a b : List Char) :
    parseNat (a ++ b) = parseNat a * 10 ^ b.length + parseNat b := by
  unfold parseNat
  rw [List.foldl_append]
  exact parseNat_shift b _

theorem parseNat_ofDigits (ds : List Nat) (h : ∀ d ∈ ds, d < 10) :
    parseNat (ds.reverse.map digitChar) = Nat.ofDigits 10 ds := by
  induction ds with
  | nil => rfl
  | cons d t ih =>
    have hd : d < 10 := h d (List.mem_cons_self d t)
    have ht : ∀ x ∈ t, x < 10 := fun x hx => h x (List.mem_cons_of_mem d hx)
    rw [List.reverse_cons, List.map_append, parseNat_append, ih ht]
    have hone : parseNat ([d].map digitChar) = d := by
      show List.foldl (fun a c => 10 * a + digitVal c) 0 [digitChar d] = d
      simp [digitVal_digitChar d hd]
    simp only [hone, List.length_map, List.length_cons, List.length_nil,
      Nat.ofDigits_cons]
    push_cast
    ring

theorem splitSep_ne_nil (c : Char) (l : List Char) : splitSep c l ≠ [] := by
  induction l with
  | nil => simp [splitSep]
  | cons d ds ih =>
    by_cases h : d = c
    · simp [splitSep, h]
    · simp only [splitSep, if_neg h]
      cases hs : splitSep c ds with
      | nil => simp
      | cons a t => simp

theorem splitSep_no_sep (c : Char) (l : List Char) (h : c ∉ l) : splitSep c l = [l] := by
  induction l with
  | nil => rfl
  | cons d ds ih =>
    have hd : d ≠ c := fun hdc => h (hdc ▸ List.mem_cons_self d ds)
    have hds : c ∉ ds := fun hm => h (List.mem_cons_of_mem d hm)
    simp only [splitSep, if_neg hd, ih hds]

theorem splitSep_append (c : Char) (a b : List Char) (h : c ∉ a) :
    splitSep c (a ++ c :: b) = a :: splitSep c b := by
  induction a with
  | nil => simp [splitSep]
  | cons d ds ih =>
    have hd : d ≠ c := fun hdc => h (hdc ▸ List.mem_cons_self d ds)
    have hds : c ∉ ds := fun hm => h (List.mem_cons_of_mem d hm)
    simp only [List.cons_append, splitSep, if_neg hd, List.append_eq, ih hds]

theorem mem_joinSep (c : Char) (parts : List (List Char)) (x : Char)
    (hx : x ∈ joinSep c parts) : x = c ∨ ∃ p ∈ parts, x ∈ p := by
  induction parts with
  | nil => simp [joinSep] at hx
  | cons p t ih =>
    cases t with
    | nil => exact Or.inr ⟨p, by simp, by simpa [joinSep] using hx⟩
    | cons q t2 =>
      rw [joinSep] at hx
      rcases List.mem_append.mp hx with h1 | h2
      · exact Or.inr ⟨p, by simp, h1⟩
      · rcases List.mem_cons.mp h2 with h3 | h4
        · exact Or.inl h3
        · rcases ih h4 with h5 | ⟨r, hr, hxr⟩
          · exact Or.inl h5
          · exact Or.inr ⟨r, List.mem_cons_of_mem p hr, hxr⟩

theorem splitSep_joinSep (c : Char) (parts : List (List Char)) (hne : parts ≠ [])
    (h : ∀ p ∈ parts, c ∉ p) : splitSep c (joinSep c parts) = parts := by
  induction parts with
  | nil => exact absurd rfl hne
  | cons p t ih =>
    cases t with
    | nil =>
      show splitSep c p = [p]
      exact splitSep_no_sep c p (h p (by simp))
    | cons q t2 =>
      rw [joinSep, splitSep_append c p _ (h p (by simp))]
      rw [ih (by simp) (fun r hr => h r (List.mem_cons_of_mem p hr))]

theorem joinSep_append_nil (c : Char) (parts : List (List Char)) (hne : parts ≠ []) :
    joinSep c parts ++ [c] = joinSep c (parts ++ [[]]) := by
  induction parts with
  | nil => exact absurd rfl hne
  | cons p t ih =>
    cases t with
    | nil => simp [joinSep]
    | cons q t2 =>
      show (p ++ c :: joinSep c (q :: t2)) ++ [c] = joinSep c (p :: ((q :: t2) ++ [[]]))
      rw [List.append_assoc]
      show p ++ (c :: (joinSep c (q :: t2) ++ [c])) = joinSep c (p :: q :: (t2 ++ [[]]))
      rw [ih (by simp)]
      rfl

/-! ## CSV round-trip: cell lemmas -/

theorem ofDigits_replicate_zero (n : Nat) : Nat.ofDigits 10 (List.replicate n 0) = 0 := by
  induction n with
  | zero => rfl
  | succ n ih =>
    rw [List.replicate_succ, Nat.ofDigits_cons, ih]

theorem scaledDigits_lt (m k : Nat) : ∀ d ∈ scaledDigits m k, d < 10 := by
  intro d hd
  rcases List.mem_append.mp hd with h1 | h2
  · exact Nat.digits_lt_base (by norm_num) h1
  · rw [List.eq_of_mem_replicate h2]
    norm_num

theorem scaledDigits_ofDigits (m k : Nat) : Nat.ofDigits 10 (scaledDigits m k) = m := by
  unfold scaledDigits
  rw [Nat.ofDigits_append, ofDigits_replicate_zero, Nat.ofDigits_digits]
  simp

theorem scaledDigits_len (m k : Nat) : k + 1 ≤ (scaledDigits m k).length := by
  unfold scaledDigits
  rw [List.length_append, List.length_replicate]
  omega

theorem mem_scaledChars (m k : Nat) (x : Char) (hx : x ∈ scaledChars m k) :
    ∃ d, d < 10 ∧ x = digitChar d := by
  rcases List.mem_map.mp hx with ⟨d, hd, rfl⟩
  exact ⟨d, scaledDigits_lt m k d (List.mem_reverse.mp hd), rfl⟩

theorem fracPartChars_len (m k : Nat) : (fracPartChars m k).length = k := by
  unfold fracPartChars
  rw [List.length_drop]
  have h1 : (scaledChars m k).length = (scaledDigits m k).length := by
    unfold scaledChars
    rw [List.length_map, List.length_reverse]
  have h2 := scaledDigits_len m k
  omega

theorem mem_renderScaled (m k : Nat) (x : Char) (hx : x ∈ renderScaled m k) :
    x = '.' ∨ ∃ d, d < 10 ∧ x = digitChar d := by
  unfold renderScaled at hx
  rcases List.mem_append.mp hx with h1 | h2
  · exact Or.inr (mem_scaledChars m k x (List.mem_of_mem_take h1))
  · rcases List.mem_cons.mp h2 with h3 | h4
    · exact Or.inl h3
    · exact Or.inr (mem_scaledChars m k x (List.mem_of_mem_drop h4))

theorem renderScaled_ne_nil (m k : Nat) : renderScaled m k ≠ [] := by
  unfold renderScaled
  simp

theorem parseRatCellAbs_pair (a b : List Char) (hna : '.' ∉ a) (hnb : '.' ∉ b) :
    parseRatCellAbs (a ++ '.' :: b) =
      some (((parseNat a * 10 ^ b.length + parseNat b : ℕ) : ℚ) / (10 ^ b.length : ℚ)) := by
  unfold parseRatCellAbs
  rw [splitSep_append _ _ _ hna, splitSep_no_sep _ _ hnb]

theorem parseRatCellAbs_renderScaled (m k : Nat) :
    parseRatCellAbs (renderScaled m k) = some ((m : ℚ) / 10 ^ k) := by
  have hdotA : '.' ∉ intPartChars m k := fun hmem => by
    rcases mem_scaledChars m k '.' (List.mem_of_mem_take hmem) with ⟨d, hd, hx⟩
    exact digitChar_ne_low d hd '.' (by decide) hx.symm
  have hdotB : '.' ∉ fracPartChars m k := fun hmem => by
    rcases mem_scaledChars m k '.' (List.mem_of_mem_drop hmem) with ⟨d, hd, hx⟩
    exact digitChar_ne_low d hd '.' (by decide) hx.symm
  have hBlen := fracPartChars_len m k
  have hAB : parseNat (intPartChars m k) * 10 ^ k + parseNat (fracPartChars m k) = m := by
    have h1 := parseNat_append (intPartChars m k) (fracPartChars m k)
    rw [hBlen] at h1
    have h2 : intPartChars m k ++ fracPartChars m k = scaledChars m k :=
      List.take_append_drop _ _
    rw [h2] at h1
    have h3 : parseNat (scaledChars m k) = m := by
      unfold scaledChars
      rw [parseNat_ofDigits _ (scaledDigits_lt m k), scaledDigits_ofDigits]
    omega
  unfold renderScaled
  rw [parseRatCellAbs_pair _ _ hdotA hdotB, hBlen, hAB]

theorem parseRatCell_renderScaled (m k : Nat) :
    parseRatCell (renderScaled m k) = some ((m : ℚ) / 10 ^ k) := by
  cases hr : renderScaled m k with
  | nil => exact absurd hr (renderScaled_ne_nil m k)
  | cons c t =>
    have hcm : c ∈ renderScaled m k := by
      rw [hr]
      exact List.mem_cons_self c t
    have hc : c ≠ '-' := by
      rcases mem_renderScaled m k c hcm with h | ⟨d, hd, hx⟩
      · subst h
        decide
      · subst hx
        exact digitChar_ne_low d hd '-' (by decide)
    unfold parseRatCell
    show (if c = '-' then Option.map Neg.neg (parseRatCellAbs t)
      else parseRatCellAbs (c :: t)) = some ((m : ℚ) / 10 ^ k)
    rw [if_neg hc, ← hr]
    exact parseRatCellAbs_renderScaled m k

theorem isDec_cast (q : ℚ) (h : IsDec q) : ∃ z : ℤ, (z : ℚ) = q * 10 ^ decExp q := by
  obtain ⟨c, hc⟩ := h
  refine ⟨q.num * c, ?_⟩
  have hden : ((q.den : ℚ)) ≠ 0 := by
    exact_mod_cast q.den_nz
  have hnum : (q.num : ℚ) = q * (q.den : ℚ) := by
    have h2 := Rat.num_div_den q
    rw [div_eq_iff hden] at h2
    exact h2
  have hc2 : ((10 : ℚ)) ^ q.den = (q.den : ℚ) * (c : ℚ) := by
    exact_mod_cast congrArg (fun n : ℕ => (n : ℚ)) hc
  show ((q.num * c : ℤ) : ℚ) = q * 10 ^ q.den
  push_cast
  rw [hnum, hc2]
  ring

theorem renderRatCell_round (q : ℚ) (hdec : IsDec q) (hpos : 0 ≤ q) :
    parseRatCell (renderRatCell q) = some q := by
  obtain ⟨z, hz⟩ := isDec_cast q hdec
  have hnum : (q * 10 ^ decExp q).num = z := by
    rw [← hz]
    exact Rat.intCast_num z
  have hz0 : 0 ≤ z := by
    have h1 : (0 : ℚ) ≤ q * 10 ^ decExp q := by
      apply mul_nonneg hpos
      positivity
    rw [← hz] at h1
    exact_mod_cast h1
  have hna : (((q * 10 ^ decExp q).num.natAbs : ℤ)) = z := by
    rw [hnum]
    exact Int.natAbs_of_nonneg hz0
  have hnlt : ¬ q < 0 := not_lt.mpr hpos
  unfold renderRatCell
  rw [if_neg hnlt, parseRatCell_renderScaled]
  congr 1
  have h5 : ((((q * 10 ^ decExp q).num.natAbs : ℤ)) : ℚ) = (z : ℚ) :=
    congrArg (fun n : ℤ => (n : ℚ)) hna
  rw [Int.cast_natCast] at h5
  rw [h5, hz]
  have h10 : ((10 : ℚ)) ^ decExp q ≠ 0 := by positivity
  field_simp

theorem mem_renderRatCell (q : ℚ) (x : Char) (hx : x ∈ renderRatCell q) :
    x = '-' ∨ x = '.' ∨ ∃ d, d < 10 ∧ x = digitChar d := by
  unfold renderRatCell at hx
  by_cases h : q < 0
  · rw [if_pos h] at hx
    rcases List.mem_cons.mp hx with h1 | h2
    · exact Or.inl h1
    · exact Or.inr (mem_renderScaled _ _ x h2)
  · rw [if_neg h] at hx
    exact Or.inr (mem_renderScaled _ _ x hx)

theorem mem_renderNat (n : Nat) (x : Char) (hx : x ∈ renderNat n) :
    ∃ d, d < 10 ∧ x = digitChar d := by
  unfold renderNat at hx
  by_cases h : n = 0
  · rw [if_pos h] at hx
    simp at hx
    exact ⟨0, by norm_num, hx⟩
  · rw [if_neg h] at hx
    rcases List.mem_map.mp hx with ⟨d, hd, rfl⟩
    exact ⟨d, Nat.digits_lt_base (by norm_num) (List.mem_reverse.mp hd), rfl⟩

theorem parseNat_renderNat (n : Nat) : parseNat (renderNat n) = n := by
  unfold renderNat
  by_cases h : n = 0
  · rw [if_pos h, h]
    decide
  · rw [if_neg h,
      parseNat_ofDigits _ (fun d hd => Nat.digits_lt_base (by norm_num) hd),
      Nat.ofDigits_digits]

/-! ## CSV round-trip: line and file lemmas -/

theorem renderNat_toNat_ge (n : Nat) (c : Char) (h : c ∈ renderNat n) : 45 ≤ c.toNat := by
  rcases mem_renderNat n c h with ⟨d, hd, rfl⟩
  rw [digitChar_toNat d hd]
  omega

theorem renderRatCell_toNat_ge (q : ℚ) (c : Char) (h : c ∈ renderRatCell q) :
    45 ≤ c.toNat := by
  rcases mem_renderRatCell q c h with h1 | h1 | ⟨d, hd, rfl⟩
  · subst h1
    decide
  · subst h1
    decide
  · rw [digitChar_toNat d hd]
    omega

theorem rowCells_sep_free (r : Row) (c : Char) (hc : c.toNat < 45) :
    ∀ p ∈ rowCells r, c ∉ p := by
  intro p hp hcp
  unfold rowCells at hp
  simp only [List.mem_cons, List.not_mem_nil, or_false] at hp
  rcases hp with rfl | rfl | rfl | rfl | rfl | rfl
  · exact absurd (renderNat_toNat_ge _ c hcp) (by omega)
  · exact absurd (renderRatCell_toNat_ge _ c hcp) (by omega)
  · exact absurd (renderRatCell_toNat_ge _ c hcp) (by omega)
  · exact absurd (renderRatCell_toNat_ge _ c hcp) (by omega)
  · exact absurd (renderRatCell_toNat_ge _ c hcp) (by omega)
  · exact absurd (renderRatCell_toNat_ge _ c hcp) (by omega)

theorem line_newline_free (r : Row) : '\n' ∉ joinSep ',' (rowCells r) := by
  intro h
  rcases mem_joinSep ',' _ '\n' h with h1 | ⟨p, hp, hmem⟩
  · exact absurd h1 (by decide)
  · exact rowCells_sep_free r '\n' (by decide) p hp hmem

theorem line_ne_nil (r : Row) : joinSep ',' (rowCells r) ≠ [] := by
  simp [rowCells, joinSep]

/-- The header and the five value cells of a row are decodable exactly
when each numeric value is a non-negative finite decimal — which every
value parsed from the provider's decimal string payload is. -/
def RowDec (r : Row) : Prop :=
  (IsDec r.Open ∧ 0 ≤ r.Open) ∧ (IsDec r.High ∧ 0 ≤ r.High) ∧ (IsDec r.Low ∧ 0 ≤ r.Low) ∧
  (IsDec r.Close ∧ 0 ≤ r.Close) ∧ (IsDec r.Volume ∧ 0 ≤ r.Volume)

instance (r : Row) : Decidable (RowDec r) := by
  unfold RowDec
  infer_instance

theorem parseLine_rowCells (r : Row) (h : RowDec r) :
    parseLine (joinSep ',' (rowCells r)) = some r := by
  have hsplit : splitSep ',' (joinSep ',' (rowCells r)) = rowCells r :=
    splitSep_joinSep ',' (rowCells r) (by simp [rowCells])
      (fun p hp => rowCells_sep_free r ',' (by decide) p hp)
  unfold parseLine
  rw [hsplit]
  simp only [rowCells]
  rw [renderRatCell_round r.Open h.1.1 h.1.2, renderRatCell_round r.High h.2.1.1 h.2.1.2,
    renderRatCell_round r.Low h.2.2.1.1 h.2.2.1.2,
    renderRatCell_round r.Close h.2.2.2.1.1 h.2.2.2.1.2,
    renderRatCell_round r.Volume h.2.2.2.2.1 h.2.2.2.2.2, parseNat_renderNat]
  rfl

theorem mapM_parseLine (rows : List Row) (h : ∀ r ∈ rows, RowDec r) :
    (rows.map (fun r => joinSep ',' (rowCells r))).mapM parseLine = some rows := by
  induction rows with
  | nil => rfl
  | cons r t ih =>
    rw [List.map_cons, List.mapM_cons,
      parseLine_rowCells r (h r (List.mem_cons_self r t)),
      ih (fun x hx => h x (List.mem_cons_of_mem r hx))]
    rfl

/-! ## Claim theorem: CSV round trip -/

/-- C9 (confirmed): exporting a windowed series with `df.to_csv()` and
re-importing the artifact reproduces the bar values exactly, for every
series whose values are (as all provider-parsed prices and volumes are)
non-negative finite decimals. -/
theorem csv_export_reimport_round_trip (rows : List Row) (h : ∀ r ∈ rows, RowDec r) :
    readCsv (toCsv rows) = some rows := by
  have hlines_ne : ∀ l ∈ (headerCells :: rows.map rowCells).map (joinSep ','), l ≠ [] := by
    intro l hl
    rcases List.mem_map.mp hl with ⟨cells, hcells, rfl⟩
    rcases List.mem_cons.mp hcells with h1 | h2
    · subst h1
      decide
    · rcases List.mem_map.mp h2 with ⟨r, hr, rfl⟩
      exact line_ne_nil r
  have hlines_nl : ∀ l ∈ (headerCells :: rows.map rowCells).map (joinSep ','), '\n' ∉ l := by
    intro l hl
    rcases List.mem_map.mp hl with ⟨cells, hcells, rfl⟩
    rcases List.mem_cons.mp hcells with h1 | h2
    · subst h1
      decide
    · rcases List.mem_map.mp h2 with ⟨r, hr, rfl⟩
      exact line_newline_free r
  have h1 : toCsv rows =
      joinSep '\n' ((headerCells :: rows.map rowCells).map (joinSep ',') ++ [[]]) := by
    unfold toCsv
    exact joinSep_append_nil '\n' _ (by simp)
  have h2 : splitSep '\n' (toCsv rows) =
      (headerCells :: rows.map rowCells).map (joinSep ',') ++ [[]] := by
    rw [h1]
    refine splitSep_joinSep '\n' _ (by simp) ?_
    intro p hp
    rcases List.mem_append.mp hp with hp1 | hp2
    · exact hlines_nl p hp1
    · simp only [List.mem_singleton] at hp2
      subst hp2
      simp
  have h3 : ((headerCells :: rows.map rowCells).map (joinSep ',') ++ [[]]).filter
      (fun l => !l.isEmpty) = (headerCells :: rows.map rowCells).map (joinSep ',') := by
    rw [List.filter_append]
    have ha : ((headerCells :: rows.map rowCells).map (joinSep ',')).filter
        (fun l => !l.isEmpty) = (headerCells :: rows.map rowCells).map (joinSep ',') := by
      refine List.filter_eq_self.mpr ?_
      intro l hl
      simpa using hlines_ne l hl
    rw [ha]
    simp
  unfold readCsv
  rw [h2, h3, List.map_cons]
  show (if joinSep ',' headerCells = joinSep ',' headerCells then
      ((rows.map rowCells).map (joinSep ',')).mapM parseLine else none) = some rows
  rw [if_pos rfl, List.map_map]
  show (rows.map (fun r => joinSep ',' (rowCells r))).mapM parseLine = some rows
  exact mapM_parseLine rows h

/-- Two bars with fractional decimal prices, for the round-trip
witness. -/
def rowsW9 : List Row := [⟨1, 21/2, 12, 9, 11, 1500⟩, ⟨2, 10, 27/4, 19/5, 12, 0⟩]

theorem csv_export_reimport_round_trip_witness :
    (∀ r ∈ rowsW9, RowDec r) ∧ readCsv (toCsv rowsW9) = some rowsW9 :=
  ⟨by with_unfolding_all decide,
    csv_export_reimport_round_trip rowsW9 (by with_unfolding_all decide)⟩

end StockDashboard
